import Mathlib

/-!
Verification of the forecasting pipeline of saimersaavedra/forecasting-api.

The embedding is shallow:
* Dates are modelled at week granularity as integers (the repository's data
  is weekly and every `pd.date_range`/`make_future_dataframe` call uses
  `freq='W'`, so one unit = one week).
* Sales values are integers; the float arithmetic of numpy/pandas is
  modelled with exact rationals where the source only does field arithmetic
  and comparisons (`np.mean`, noise factors), and with real numbers where
  the source uses the transcendental `np.log1p`/`np.expm1`.
* `np.random.uniform` draws are modelled as an explicit list of (rational)
  factors passed to the functions that consume them.
* The Prophet model is an external collaborator: its raw prediction column
  (`forecast['yhat']` on the transformed scale, over all rows of
  `make_future_dataframe`) and its date column are oracle arguments.
* Python's `round` / numpy `.round()` round half to even; numpy
  `.astype(int)` truncates toward zero.  Both are modelled explicitly.
* Exceptions raised by model fitting (`ForecastingError`) are modelled with
  `Except`: the per-product prediction oracle returns `Except String Fore`.
-/

/-- Round half to even (the rounding of Python `round` and numpy `.round()`),
generic over an ordered field with a floor. -/
def roundHalfEven {α : Type} [LinearOrderedField α] [FloorRing α] (x : α) : ℤ :=
  if x - ⌊x⌋ < 1/2 then ⌊x⌋
  else if (1:α)/2 < x - ⌊x⌋ then ⌊x⌋ + 1
  else if ⌊x⌋ % 2 = 0 then ⌊x⌋ else ⌊x⌋ + 1

/-- Truncation toward zero, numpy's `.astype(int)` on a float. -/
noncomputable def truncR (x : ℝ) : ℤ := if x < 0 then ⌈x⌉ else ⌊x⌋

/-- `np.log1p`. -/
noncomputable def log1p (x : ℝ) : ℝ := Real.log (1 + x)

/-- `np.expm1`. -/
noncomputable def expm1 (x : ℝ) : ℝ := Real.exp x - 1

/-- `np.mean` of a list of integers, as an exact rational. -/
def meanQ (l : List ℤ) : ℚ := (l.sum : ℚ) / l.length

/-- Python `l[-3:]`: the last three elements (all of them when fewer). -/
def last3 (l : List ℤ) : List ℤ := l.drop (l.length - 3)

/-- Pandas `.tail(n)`: the last `n` elements. -/
def tailN {α : Type} (n : ℕ) (l : List α) : List α := l.drop (l.length - n)

/-- `df['ds'].max()`: the greatest date of the series (`0` for an empty one,
a case the source never reaches). -/
def maxDs : List ℤ → ℤ
  | [] => 0
  | d :: ds => ds.foldl max d

/-- `pd.date_range(start=.., periods=.., freq='W')` at week granularity:
`periods` consecutive weekly dates starting at `start`. -/
def dateRange (start : ℤ) (periods : ℕ) : List ℤ :=
  (List.range periods).map (fun (i : ℕ) => start + (i : ℤ))

/-- `prepare_category_df` (predictor.py:7-17): select the category column,
clip at 0, apply `log1p`.  Only the value column is transformed, so the
model is a map over the list of values. -/
noncomputable def prepare_category_df (vs : List ℤ) : List ℝ :=
  vs.map (fun (v : ℤ) => log1p (max (v : ℝ) 0))

/-- `prepare_product_df` (predictor.py:19-29): identical transformation of
the product value column. -/
noncomputable def prepare_product_df (vs : List ℤ) : List ℝ :=
  vs.map (fun (v : ℤ) => log1p (max (v : ℝ) 0))

/-- `es_forecast_inestable` (predictor.py:31-39). -/
def es_forecast_inestable (history forecast : List ℤ) (umbral : ℚ) : Bool :=
  if history.length < 3 ∨ forecast.length = 0 then false
  else decide (0 < meanQ (last3 history)) && decide (meanQ (last3 history) * umbral < meanQ forecast)

/-- `add_noise` (predictor.py:63-71 and 147-151): multiply each element by
its drawn factor, round half to even, clip at 0.  `factors` models the
`np.random.uniform(1-pct, 1+pct, size=array.shape)` draw. -/
def add_noise (array : List ℤ) (factors : List ℚ) : List ℤ :=
  (array.zip factors).map (fun p => max (roundHalfEven ((p.1 : ℚ) * p.2)) 0)

/-- `non_zero_count` (predictor.py:60 and 144): how many transformed values
are positive. -/
noncomputable def non_zero_count (ys : List ℝ) : ℕ :=
  ys.countP (fun y => decide (0 < y))

/-- `avg_log` (predictor.py:75 and 155): mean of the transformed column. -/
noncomputable def avg_log (ys : List ℝ) : ℝ := ys.sum / ys.length

/-- The sparse-fallback base value `int(round(np.expm1(avg_log)))`
(predictor.py:82 and 156). -/
noncomputable def sparse_base (ys : List ℝ) : ℤ := roundHalfEven (expm1 (avg_log ys))

/-- The per-value inversion of the model output
(predictor.py:102-103 and 181-182): `expm1` of the value clipped at 0,
rounded, cast to int. -/
noncomputable def invert_yhat (y : ℝ) : ℤ := roundHalfEven (expm1 (max y 0))

/-- The same inversion in the order the spec words it:
`round(clip(expm1(yhat), lower=0))`. -/
noncomputable def invert_yhat_spec (y : ℝ) : ℤ := roundHalfEven (max (expm1 y) 0)

/-- `hist_vals` (predictor.py:108 and 186): history back on the original
scale, `np.expm1(y).astype(int)`. -/
noncomputable def hist_vals (ys : List ℝ) : List ℤ :=
  ys.map (fun y => truncR (expm1 y))

/-- `fore_vals` (predictor.py:101-104/109 and 181-183/187): the inverted
model predictions of the last `weeks` rows. -/
noncomputable def fore_vals (rawYhat : List ℝ) (weeks : ℕ) : List ℤ :=
  tailN weeks (rawYhat.map invert_yhat)

/-- The result frame `['ds', 'yhat']` returned by the predictors. -/
structure Fore where
  ds : List ℤ
  yhat : List ℤ
  deriving DecidableEq, Repr

/-- `predict_product_sales` (predictor.py:127-201).  `ds`/`ys` are the
prepared frame the caller passes (`prepare_product_df` output); `rawDs` and
`rawYhat` are the Prophet oracle's full prediction columns; `factors` the
noise draw consumed by whichever branch returns. -/
noncomputable def predict_product_sales (ds : List ℤ) (ys : List ℝ) (weeks : ℕ)
    (umbral : ℚ) (rawDs : List ℤ) (rawYhat : List ℝ) (factors : List ℚ) : Fore :=
  if non_zero_count ys < 6 then
    { ds := dateRange (maxDs ds + 1) weeks
      yhat := add_noise (List.replicate weeks (sparse_base ys)) factors }
  else
    if es_forecast_inestable (hist_vals ys) (fore_vals rawYhat weeks) umbral then
      { ds := dateRange (maxDs ds + 1) weeks
        yhat := add_noise
          (List.replicate weeks (roundHalfEven (meanQ (last3 (hist_vals ys))))) factors }
    else
      { ds := tailN weeks rawDs
        yhat := add_noise (fore_vals rawYhat weeks) factors }

/-- `predict_category_sales` (predictor.py:41-125): same pipeline, but the
series is prepared inside the function from the raw category column. -/
noncomputable def predict_category_sales (ds : List ℤ) (vs : List ℤ) (weeks : ℕ)
    (umbral : ℚ) (rawDs : List ℤ) (rawYhat : List ℝ) (factors : List ℚ) : Fore :=
  if non_zero_count (prepare_category_df vs) < 6 then
    { ds := dateRange (maxDs ds + 1) weeks
      yhat := add_noise (List.replicate weeks (sparse_base (prepare_category_df vs))) factors }
  else
    if es_forecast_inestable (hist_vals (prepare_category_df vs))
        (fore_vals rawYhat weeks) umbral then
      { ds := dateRange (maxDs ds + 1) weeks
        yhat := add_noise
          (List.replicate weeks
            (roundHalfEven (meanQ (last3 (hist_vals (prepare_category_df vs)))))) factors }
    else
      { ds := tailN weeks rawDs
        yhat := add_noise (fore_vals rawYhat weeks) factors }

/-- `predict_next_weeks` (main.py bundle, `predict_next_weeks` of the
predictor used by the HTTP endpoints): fit on the prepared frame `(ds, ys)`
(consumed by the model oracle), invert with
`expm1(clip(yhat, 0)).clip(0).round().astype(int)`, return the tail. -/
noncomputable def predict_next_weeks (ds : List ℤ) (ys : List ℝ) (weeks : ℕ)
    (rawDs : List ℤ) (rawYhat : List ℝ) : Fore :=
  { ds := tailN weeks rawDs
    yhat := tailN weeks (rawYhat.map (fun y => roundHalfEven (max (expm1 (max y 0)) 0))) }

/-- One record of the products snapshot (generate_forecasts.py:117-123). -/
structure ProductRecord where
  product_id : String
  name : String
  history : List (ℤ × ℤ)
  forecasting : List (ℤ × ℤ)
  weeks : ℕ
  deriving DecidableEq, Repr

/-- One record of the categories snapshot (generate_forecasts.py:49-54). -/
structure CategoryRecord where
  category : String
  history : List (ℤ × ℤ)
  forecasting : List (ℤ × ℤ)
  weeks : ℕ
  deriving DecidableEq, Repr

/-- The horizon constant `WEEKS = 4` (generate_forecasts.py:18). -/
def WEEKS : ℕ := 4

/-- The per-product loop body of `generate_product_forecasts`
(generate_forecasts.py:79-123): build the history, re-check instability of
the finalized forecast against the full history (threshold defaulting to
1.5), and either replicate the rounded trailing-3 mean over the forecast
dates or keep the predicted values. -/
def product_record (pid name : String) (df : List (ℤ × ℤ)) (foreDf : Fore) : ProductRecord :=
  let history_values := df.map Prod.snd
  let forecast_values := foreDf.yhat
  let forecasting :=
    if es_forecast_inestable history_values forecast_values (3/2) then
      foreDf.ds.map (fun d => (d, roundHalfEven (meanQ (last3 history_values))))
    else
      foreDf.ds.zip foreDf.yhat
  { product_id := pid, name := name, history := df
    forecasting := forecasting, weeks := WEEKS }

/-- `generate_product_forecasts` (generate_forecasts.py:65-131): iterate the
known products in order, skip a product whose cleaned history is empty,
call the predictor (which may raise, modelled by `Except`), append one
record per remaining product.  No `try`/`except` surrounds the predictor
call, so an error aborts the whole batch. -/
def generate_product_forecasts (products : List (String × String))
    (fetchHist : String → List (ℤ × ℤ))
    (predictProd : String → Except String Fore) : Except String (List ProductRecord) :=
  match products with
  | [] => Except.ok []
  | prod :: rest =>
    let df := fetchHist prod.1
    if df = [] then generate_product_forecasts rest fetchHist predictProd
    else
      match predictProd prod.1 with
      | Except.error e => Except.error e
      | Except.ok foreDf =>
        match generate_product_forecasts rest fetchHist predictProd with
        | Except.error e => Except.error e
        | Except.ok recs => Except.ok (product_record prod.1 prod.2 df foreDf :: recs)

/-- The per-category loop body of `generate_category_forecasts`
(generate_forecasts.py:26-54). -/
def category_record (cat : String) (dates : List ℤ) (histVals : List ℤ)
    (foreDf : Fore) : CategoryRecord :=
  { category := cat, history := dates.zip histVals
    forecasting := foreDf.ds.zip foreDf.yhat, weeks := WEEKS }

/-- `generate_category_forecasts` (generate_forecasts.py:20-62): iterate the
category columns, predict with `predict_next_weeks` (modelled by the
`Except`-valued oracle, no `try`/`except` around it), append one record per
category. -/
def generate_category_forecasts (categories : List String) (dates : List ℤ)
    (histVals : String → List ℤ)
    (predictCat : String → Except String Fore) : Except String (List CategoryRecord) :=
  match categories with
  | [] => Except.ok []
  | cat :: rest =>
    match predictCat cat with
    | Except.error e => Except.error e
    | Except.ok foreDf =>
      match generate_category_forecasts rest dates histVals predictCat with
      | Except.error e => Except.error e
      | Except.ok recs => Except.ok (category_record cat dates (histVals cat) foreDf :: recs)

/-- The snapshot write (generate_forecasts.py:61-62 and 130-131):
`open(path, 'w')` + `json.dump(results)` replaces the file content with the
new list wholesale, whatever the old content was, and runs also when the
new list is empty. -/
def write_snapshot (new : List ProductRecord) (old : Option (List ProductRecord)) :
    List ProductRecord :=
  new

/-! ### Helper lemmas -/

lemma roundHalfEven_intCast {α : Type} [LinearOrderedField α] [FloorRing α] (n : ℤ) :
    roundHalfEven ((n : α)) = n := by
  have : ((n : α)) - ⌊(n : α)⌋ = 0 := by simp
  simp only [roundHalfEven, this]
  norm_num

lemma roundHalfEven_nonneg {α : Type} [LinearOrderedField α] [FloorRing α]
    {x : α} (h : 0 ≤ x) : 0 ≤ roundHalfEven x := by
  have hf : (0 : ℤ) ≤ ⌊x⌋ := Int.floor_nonneg.2 h
  unfold roundHalfEven
  split_ifs <;> omega

lemma abs_roundHalfEven_sub_le {α : Type} [LinearOrderedField α] [FloorRing α]
    (x : α) : |(roundHalfEven x : α) - x| ≤ 1/2 := by
  have h0 : (⌊x⌋ : α) ≤ x := Int.floor_le x
  have h1 : x < ⌊x⌋ + 1 := Int.lt_floor_add_one x
  unfold roundHalfEven
  split_ifs with hlt hgt heven <;>
    · rw [abs_le]
      push_cast
      constructor <;> linarith

lemma roundHalfEven_ge {α : Type} [LinearOrderedField α] [FloorRing α]
    (x : α) : x - 1/2 ≤ (roundHalfEven x : α) := by
  have := abs_roundHalfEven_sub_le x
  rw [abs_le] at this
  linarith [this.1]

lemma log1p_nonneg {x : ℝ} (h : 0 ≤ x) : 0 ≤ log1p x :=
  Real.log_nonneg (by linarith)

lemma expm1_log1p {x : ℝ} (h : 0 ≤ x) : expm1 (log1p x) = x := by
  rw [log1p, expm1, Real.exp_log (by linarith)]
  ring

lemma expm1_nonneg {x : ℝ} (h : 0 ≤ x) : 0 ≤ expm1 x := by
  have : (1 : ℝ) ≤ Real.exp x := by
    calc (1 : ℝ) = Real.exp 0 := (Real.exp_zero).symm
    _ ≤ Real.exp x := Real.exp_le_exp.2 h
  rw [expm1]; linarith

lemma expm1_nonpos {x : ℝ} (h : x ≤ 0) : expm1 x ≤ 0 := by
  have : Real.exp x ≤ Real.exp 0 := Real.exp_le_exp.2 h
  rw [Real.exp_zero] at this
  rw [expm1]; linarith

lemma expm1_zero : expm1 0 = 0 := by
  rw [expm1, Real.exp_zero]; ring

lemma log1p_pos_iff (v : ℤ) : 0 < log1p (max (v : ℝ) 0) ↔ 0 < v := by
  constructor
  · intro h
    by_contra hv
    push_neg at hv
    have hv' : (v : ℝ) ≤ 0 := by exact_mod_cast hv
    rw [log1p, max_eq_right hv'] at h
    simp [Real.log_one] at h
  · intro h
    have hv : (0 : ℝ) < v := by exact_mod_cast h
    rw [log1p, max_eq_left hv.le]
    exact Real.log_pos (by linarith)

lemma truncR_intCast (n : ℤ) (h : 0 ≤ n) : truncR ((n : ℤ) : ℝ) = n := by
  rw [truncR, if_neg]
  · simp
  · push_neg
    exact_mod_cast h

lemma prepare_product_eq_category (vs : List ℤ) :
    prepare_product_df vs = prepare_category_df vs := rfl

lemma non_zero_count_prepare (vs : List ℤ) :
    non_zero_count (prepare_category_df vs) = vs.countP (fun v => decide (0 < v)) := by
  rw [non_zero_count, prepare_category_df, List.countP_map]
  refine List.countP_congr ?_
  intro v _
  simp only [Function.comp, decide_eq_true_eq]
  exact log1p_pos_iff v

lemma invert_log1p_int (v : ℤ) (h : 0 ≤ v) :
    invert_yhat (log1p (max (v : ℝ) 0)) = v := by
  have h0 : (0 : ℝ) ≤ max (v : ℝ) 0 := le_max_right _ _
  rw [invert_yhat, max_eq_left (log1p_nonneg h0), expm1_log1p h0,
    max_eq_left (by exact_mod_cast h), roundHalfEven_intCast]

lemma hist_vals_prepare (vs : List ℤ) :
    hist_vals (prepare_category_df vs) = vs.map (fun v => max v 0) := by
  rw [hist_vals, prepare_category_df, List.map_map]
  refine List.map_congr_left ?_
  intro v _
  have h0 : (0 : ℝ) ≤ max (v : ℝ) 0 := le_max_right _ _
  simp only [Function.comp]
  rw [expm1_log1p h0]
  have : max (v : ℝ) 0 = ((max v 0 : ℤ) : ℝ) := by push_cast; ring_nf
  rw [this, truncR_intCast _ (le_max_right _ _)]

lemma hist_vals_prepare_nonneg (vs : List ℤ) (h : ∀ v ∈ vs, 0 ≤ v) :
    hist_vals (prepare_category_df vs) = vs := by
  rw [hist_vals_prepare]
  have : vs.map (fun v => max v 0) = vs.map id := by
    refine List.map_congr_left ?_
    intro v hv
    exact max_eq_left (h v hv)
  rw [this, List.map_id]

lemma add_noise_length (array : List ℤ) (factors : List ℚ)
    (h : factors.length = array.length) :
    (add_noise array factors).length = array.length := by
  simp [add_noise, h]

lemma add_noise_nonneg (array : List ℤ) (factors : List ℚ) :
    ∀ v ∈ add_noise array factors, 0 ≤ v := by
  intro v hv
  rw [add_noise, List.mem_map] at hv
  obtain ⟨p, -, rfl⟩ := hv
  exact le_max_right _ _

lemma add_noise_replicate_mem (n : ℕ) (b : ℤ) (factors : List ℚ) :
    ∀ v ∈ add_noise (List.replicate n b) factors,
      ∃ f ∈ factors, v = max (roundHalfEven ((b : ℚ) * f)) 0 := by
  induction factors generalizing n with
  | nil => intro v hv; simp [add_noise] at hv
  | cons f fs ih =>
    intro v hv
    match n with
    | 0 => simp [add_noise] at hv
    | n + 1 =>
      rw [List.replicate_succ, add_noise, List.zip_cons_cons, List.map_cons] at hv
      rcases List.mem_cons.1 hv with h | h
      · exact ⟨f, List.mem_cons_self f fs, h⟩
      · obtain ⟨f', hf', he⟩ := ih n v h
        exact ⟨f', List.mem_cons_of_mem f hf', he⟩

lemma add_noise_zero (n : ℕ) (factors : List ℚ) (h : factors.length = n) :
    add_noise (List.replicate n 0) factors = List.replicate n 0 := by
  subst h
  induction factors with
  | nil => simp [add_noise]
  | cons f fs ih =>
    rw [List.length_cons, List.replicate_succ, add_noise, List.zip_cons_cons, List.map_cons]
    have h0 : roundHalfEven ((0 : ℚ)) = 0 := by
      simpa using roundHalfEven_intCast (α := ℚ) 0
    rw [show List.map (fun (p : ℤ × ℚ) => max (roundHalfEven ((p.1 : ℚ) * p.2)) 0)
        ((List.replicate fs.length 0).zip fs) = add_noise (List.replicate fs.length 0) fs
      from rfl, ih]
    simp [h0]

lemma add_noise_forall2 (array : List ℤ) (factors : List ℚ) (pct : ℚ)
    (h : factors.length = array.length)
    (hf : ∀ f ∈ factors, 1 - pct ≤ f ∧ f ≤ 1 + pct)
    (ha : ∀ a ∈ array, 0 ≤ a) :
    List.Forall₂ (fun v a => ∃ r : ℚ, |r - (a : ℚ)| ≤ pct * a ∧ v = max (roundHalfEven r) 0)
      (add_noise array factors) array := by
  induction array generalizing factors with
  | nil => simp [add_noise]
  | cons a as ih =>
    match factors, h with
    | f :: fs, h =>
      rw [add_noise, List.zip_cons_cons, List.map_cons]
      constructor
      · refine ⟨(a : ℚ) * f, ?_, rfl⟩
        have ha0 : (0 : ℚ) ≤ (a : ℚ) := by
          exact_mod_cast ha a (List.mem_cons_self a as)
        have hfb := hf f (List.mem_cons_self f fs)
        have habs : |(f : ℚ) - 1| ≤ pct := abs_le.2 ⟨by linarith [hfb.1], by linarith [hfb.2]⟩
        have : (a : ℚ) * f - a = a * (f - 1) := by ring
        rw [this, abs_mul, abs_of_nonneg ha0, mul_comm pct (a : ℚ)]
        exact mul_le_mul_of_nonneg_left habs ha0
      · refine ih fs ?_ ?_ ?_
        · simpa using h
        · intro g hg; exact hf g (List.mem_cons_of_mem f hg)
        · intro b hb; exact ha b (List.mem_cons_of_mem a hb)

/-! ### Claim theorems -/

/-- C2: `es_forecast_inestable` returns false whenever the history has
fewer than 3 points or the forecast is empty, and otherwise returns true
iff the mean of the last 3 history points is positive and the forecast
mean exceeds it times the threshold; in particular
`isUnstable([10,10,10],[100],1.5)` is true and
`isUnstable([10,10,10],[12],1.5)` is false. -/
theorem c2_instability_predicate :
    (∀ (history forecast : List ℤ) (umbral : ℚ),
        es_forecast_inestable history forecast umbral = true ↔
          3 ≤ history.length ∧ forecast ≠ [] ∧ 0 < meanQ (last3 history) ∧
            meanQ (last3 history) * umbral < meanQ forecast)
    ∧ (∀ (history forecast : List ℤ) (umbral : ℚ),
        history.length < 3 ∨ forecast = [] →
          es_forecast_inestable history forecast umbral = false)
    ∧ es_forecast_inestable [10, 10, 10] [100] (3/2) = true
    ∧ es_forecast_inestable [10, 10, 10] [12] (3/2) = false := by
  have core : ∀ (history forecast : List ℤ) (umbral : ℚ),
      es_forecast_inestable history forecast umbral = true ↔
        3 ≤ history.length ∧ forecast ≠ [] ∧ 0 < meanQ (last3 history) ∧
          meanQ (last3 history) * umbral < meanQ forecast := by
    intro history forecast umbral
    rw [es_forecast_inestable]
    split_ifs with hguard
    · simp only [Bool.false_eq_true, false_iff]
      rintro ⟨h3, hne, -, -⟩
      rcases hguard with h | h
      · omega
      · exact hne (List.length_eq_zero.1 h)
    · push_neg at hguard
      rw [Bool.and_eq_true, decide_eq_true_eq, decide_eq_true_eq]
      constructor
      · rintro ⟨h1, h2⟩
        refine ⟨by omega, ?_, h1, h2⟩
        intro hnil
        exact hguard.2 (by rw [hnil]; rfl)
      · rintro ⟨-, -, h1, h2⟩
        exact ⟨h1, h2⟩
  refine ⟨core, ?_, ?_, ?_⟩
  · intro history forecast umbral h
    rw [es_forecast_inestable, if_pos]
    rcases h with h | h
    · exact Or.inl h
    · exact Or.inr (by rw [h]; rfl)
  · rw [core]
    refine ⟨by norm_num, by norm_num, ?_, ?_⟩ <;> norm_num [meanQ, last3]
  · rw [Bool.eq_false_iff]
    intro hc
    rw [core] at hc
    have := hc.2.2.2
    norm_num [meanQ, last3] at this

/-- C5: the value transform applied by series preparation
(`log1p` after clipping at 0) composed with the inversion applied to
predictions (`round(expm1(clip(·, 0)))`) is the identity on non-negative
integers, hence recovers `v` within the claimed ±1 tolerance. -/
theorem c5_roundtrip (v : ℤ) (h : 0 ≤ v) :
    invert_yhat (log1p (max (v : ℝ) 0)) = v
    ∧ List.map invert_yhat (prepare_category_df [v]) = [v] := by
  refine ⟨invert_log1p_int v h, ?_⟩
  rw [prepare_category_df, List.map_cons, List.map_nil, List.map_cons, List.map_nil,
    invert_log1p_int v h]

theorem c5_roundtrip_witness :
    0 ≤ (5 : ℤ) ∧
      (invert_yhat (log1p (max ((5 : ℤ) : ℝ) 0)) = 5
        ∧ List.map invert_yhat (prepare_category_df [(5 : ℤ)]) = [5]) :=
  ⟨by decide, c5_roundtrip 5 (by decide)⟩

/-- C6: the code's inversion order `expm1(clip(yhat, 0))` agrees with the
spec's `clip(expm1(yhat), 0)` for every real `yhat`, and maps every
non-positive `yhat` to 0. -/
theorem c6_inversion_order (y : ℝ) :
    invert_yhat y = invert_yhat_spec y ∧ (y ≤ 0 → invert_yhat y = 0) := by
  have key : expm1 (max y 0) = max (expm1 y) 0 := by
    rcases le_total y 0 with h | h
    · rw [max_eq_right h, expm1_zero, max_eq_right (expm1_nonpos h)]
    · rw [max_eq_left h, max_eq_left (expm1_nonneg h)]
  constructor
  · rw [invert_yhat, invert_yhat_spec, key]
  · intro h
    rw [invert_yhat, max_eq_right h, expm1_zero]
    simpa using roundHalfEven_intCast (α := ℝ) 0

/-- C7: `add_noise` preserves length, returns only non-negative entries,
each of which is the clipped rounding of a value within ±pct of the
corresponding input, and maps an all-zero sequence to itself for every
draw of factors. -/
theorem c7_add_noise_bounds (array : List ℤ) (factors : List ℚ) (pct : ℚ)
    (hlen : factors.length = array.length)
    (hf : ∀ f ∈ factors, 1 - pct ≤ f ∧ f ≤ 1 + pct)
    (ha : ∀ a ∈ array, 0 ≤ a) :
    (add_noise array factors).length = array.length
    ∧ (∀ v ∈ add_noise array factors, 0 ≤ v)
    ∧ List.Forall₂ (fun v a => ∃ r : ℚ, |r - (a : ℚ)| ≤ pct * a ∧ v = max (roundHalfEven r) 0)
        (add_noise array factors) array
    ∧ add_noise (List.replicate array.length 0) factors = List.replicate array.length 0 :=
  ⟨add_noise_length array factors hlen, add_noise_nonneg array factors,
    add_noise_forall2 array factors pct hlen hf ha,
    add_noise_zero array.length factors hlen⟩

theorem c7_add_noise_witness :
    ([1, 1] : List ℚ).length = ([10, 0] : List ℤ).length
    ∧ (∀ f ∈ ([1, 1] : List ℚ), 1 - 1/10 ≤ f ∧ f ≤ 1 + 1/10)
    ∧ (∀ a ∈ ([10, 0] : List ℤ), 0 ≤ a)
    ∧ ((add_noise [10, 0] [1, 1]).length = ([10, 0] : List ℤ).length
      ∧ (∀ v ∈ add_noise [10, 0] [1, 1], 0 ≤ v)
      ∧ List.Forall₂
          (fun v a => ∃ r : ℚ, |r - (a : ℚ)| ≤ 1/10 * a ∧ v = max (roundHalfEven r) 0)
          (add_noise [10, 0] [1, 1]) [10, 0]
      ∧ add_noise (List.replicate ([10, 0] : List ℤ).length 0) [1, 1] =
          List.replicate ([10, 0] : List ℤ).length 0) :=
  ⟨by decide,
    by
      intro f hf
      rcases List.mem_cons.1 hf with rfl | hf
      · constructor <;> norm_num
      · rcases List.mem_cons.1 hf with rfl | hf
        · constructor <;> norm_num
        · exact absurd hf (List.not_mem_nil f),
    by decide,
    c7_add_noise_bounds [10, 0] [1, 1] (1/10) (by decide)
      (by
        intro f hf
        rcases List.mem_cons.1 hf with rfl | hf
        · constructor <;> norm_num
        · rcases List.mem_cons.1 hf with rfl | hf
          · constructor <;> norm_num
          · exact absurd hf (List.not_mem_nil f))
      (by decide)⟩

/-- C9: `predict_next_weeks` is a deterministic function of its inputs:
given the same model output it returns the same result whatever the input
series, it equals the plain inversion of the model's raw tail with no
branching on data sparsity or instability, and its values are exactly the
un-noised inverted predictions (`fore_vals`). -/
theorem c9_predict_next_weeks_deterministic
    (ds ds2 : List ℤ) (ys ys2 : List ℝ) (weeks : ℕ) (rawDs : List ℤ) (rawYhat : List ℝ) :
    predict_next_weeks ds ys weeks rawDs rawYhat = predict_next_weeks ds2 ys2 weeks rawDs rawYhat
    ∧ predict_next_weeks ds ys weeks rawDs rawYhat =
        { ds := tailN weeks rawDs
          yhat := (tailN weeks rawYhat).map
            (fun y => roundHalfEven (max (expm1 (max y 0)) 0)) }
    ∧ (predict_next_weeks ds ys weeks rawDs rawYhat).yhat = fore_vals rawYhat weeks := by
  have hinv : ∀ y : ℝ, roundHalfEven (max (expm1 (max y 0)) 0) = invert_yhat y := by
    intro y
    rw [invert_yhat, max_eq_left (expm1_nonneg (le_max_right y 0))]
  refine ⟨rfl, ?_, ?_⟩
  · rw [predict_next_weeks]
    congr 1
    rw [tailN, tailN, List.map_drop, List.length_map]
  · rw [predict_next_weeks, fore_vals]
    simp only
    rw [show (rawYhat.map fun y => roundHalfEven (max (expm1 (max y 0)) 0)) =
        rawYhat.map invert_yhat from List.map_congr_left (fun y _ => hinv y)]

lemma sparse_base_prepare_nonneg (vs : List ℤ) :
    0 ≤ sparse_base (prepare_category_df vs) := by
  apply roundHalfEven_nonneg
  apply expm1_nonneg
  rw [avg_log]
  apply div_nonneg
  · apply List.sum_nonneg
    intro y hy
    rw [prepare_category_df] at hy
    obtain ⟨v, -, rfl⟩ := List.mem_map.1 hy
    exact log1p_nonneg (le_max_right _ _)
  · exact Nat.cast_nonneg _

/-- C1 (amended): for a series with fewer than 6 positive points both
predictors skip the model and return `weeks` points at weekly dates
starting the week after the last historical date, each value within ±10%
(before the final rounding and clipping of the noise) of
`round(expm1(mean(log1p(clipped values))))` — the rounded inverse-transformed
mean of the transformed values, not the mean of the original values. -/
theorem c1_sparse_fallback_amended (ds vs : List ℤ) (weeks : ℕ) (umbral : ℚ)
    (rawDs : List ℤ) (rawYhat : List ℝ) (factors : List ℚ)
    (hcount : non_zero_count (prepare_category_df vs) < 6)
    (hlen : factors.length = weeks)
    (hf : ∀ f ∈ factors, 1 - 1/10 ≤ f ∧ f ≤ 1 + 1/10) :
    (predict_category_sales ds vs weeks umbral rawDs rawYhat factors).yhat.length = weeks
    ∧ (predict_category_sales ds vs weeks umbral rawDs rawYhat factors).ds =
        dateRange (maxDs ds + 1) weeks
    ∧ (∀ v ∈ (predict_category_sales ds vs weeks umbral rawDs rawYhat factors).yhat,
        ∃ r : ℚ, |r - (sparse_base (prepare_category_df vs) : ℚ)| ≤
            (sparse_base (prepare_category_df vs) : ℚ) / 10
          ∧ v = max (roundHalfEven r) 0)
    ∧ (∀ (rawDs2 : List ℤ) (rawYhat2 : List ℝ),
        predict_category_sales ds vs weeks umbral rawDs2 rawYhat2 factors =
          predict_category_sales ds vs weeks umbral rawDs rawYhat factors)
    ∧ predict_product_sales ds (prepare_product_df vs) weeks umbral rawDs rawYhat factors =
        predict_category_sales ds vs weeks umbral rawDs rawYhat factors := by
  have hmain : predict_category_sales ds vs weeks umbral rawDs rawYhat factors =
      { ds := dateRange (maxDs ds + 1) weeks
        yhat := add_noise (List.replicate weeks (sparse_base (prepare_category_df vs)))
          factors } := by
    rw [predict_category_sales, if_pos hcount]
  refine ⟨?_, ?_, ?_, ?_, ?_⟩
  · rw [hmain]
    have := add_noise_length (List.replicate weeks (sparse_base (prepare_category_df vs)))
      factors (by rw [hlen, List.length_replicate])
    rw [this, List.length_replicate]
  · rw [hmain]
  · intro v hv
    rw [hmain] at hv
    obtain ⟨f, hfmem, rfl⟩ :=
      add_noise_replicate_mem weeks (sparse_base (prepare_category_df vs)) factors v hv
    refine ⟨(sparse_base (prepare_category_df vs) : ℚ) * f, ?_, rfl⟩
    have hb : (0 : ℚ) ≤ (sparse_base (prepare_category_df vs) : ℚ) := by
      exact_mod_cast sparse_base_prepare_nonneg vs
    have hfb := hf f hfmem
    have habs : |f - 1| ≤ 1/10 := abs_le.2 ⟨by linarith [hfb.1], by linarith [hfb.2]⟩
    have heq : (sparse_base (prepare_category_df vs) : ℚ) * f -
        (sparse_base (prepare_category_df vs) : ℚ) =
        (sparse_base (prepare_category_df vs) : ℚ) * (f - 1) := by ring
    rw [heq, abs_mul, abs_of_nonneg hb]
    calc (sparse_base (prepare_category_df vs) : ℚ) * |f - 1|
        ≤ (sparse_base (prepare_category_df vs) : ℚ) * (1/10) :=
          mul_le_mul_of_nonneg_left habs hb
      _ = (sparse_base (prepare_category_df vs) : ℚ) / 10 := by ring
  · intro rawDs2 rawYhat2
    rw [hmain, predict_category_sales, if_pos hcount]
  · rw [hmain, predict_product_sales, prepare_product_eq_category, if_pos hcount]

theorem c1_sparse_fallback_witness :
    non_zero_count (prepare_category_df [5]) < 6
    ∧ ([1, 1] : List ℚ).length = 2
    ∧ (∀ f ∈ ([1, 1] : List ℚ), 1 - 1/10 ≤ f ∧ f ≤ 1 + 1/10)
    ∧ ((predict_category_sales [0] [5] 2 (3/2) [] [] [1, 1]).yhat.length = 2
      ∧ (predict_category_sales [0] [5] 2 (3/2) [] [] [1, 1]).ds = dateRange (maxDs [0] + 1) 2
      ∧ (∀ v ∈ (predict_category_sales [0] [5] 2 (3/2) [] [] [1, 1]).yhat,
          ∃ r : ℚ, |r - (sparse_base (prepare_category_df [5]) : ℚ)| ≤
              (sparse_base (prepare_category_df [5]) : ℚ) / 10
            ∧ v = max (roundHalfEven r) 0)
      ∧ (∀ (rawDs2 : List ℤ) (rawYhat2 : List ℝ),
          predict_category_sales [0] [5] 2 (3/2) rawDs2 rawYhat2 [1, 1] =
            predict_category_sales [0] [5] 2 (3/2) [] [] [1, 1])
      ∧ predict_product_sales [0] (prepare_product_df [5]) 2 (3/2) [] [] [1, 1] =
          predict_category_sales [0] [5] 2 (3/2) [] [] [1, 1]) :=
  ⟨by rw [non_zero_count_prepare]; decide, by decide,
    by
      intro f hf
      rcases List.mem_cons.1 hf with rfl | hf
      · constructor <;> norm_num
      · rcases List.mem_cons.1 hf with rfl | hf
        · constructor <;> norm_num
        · exact absurd hf (List.not_mem_nil f),
    c1_sparse_fallback_amended [0] [5] 2 (3/2) [] [] [1, 1]
      (by rw [non_zero_count_prepare]; decide) (by decide)
      (by
        intro f hf
        rcases List.mem_cons.1 hf with rfl | hf
        · constructor <;> norm_num
        · rcases List.mem_cons.1 hf with rfl | hf
          · constructor <;> norm_num
          · exact absurd hf (List.not_mem_nil f))⟩

/-- C1 (counterexample): on the series `[0, 8]` (one positive point, so the
sparse fallback fires) with the identity noise factor, the returned value
is 2 — the rounded `expm1` of the mean of the `log1p` values — while the
rounded mean of the original values is 4, and no pre-rounding value within
±10% of 4 can round and clip to 2. -/
theorem c1_sparse_mean_counterexample :
    (predict_category_sales [0, 1] [0, 8] 1 (3/2) [] [] [1]).yhat = [2]
    ∧ roundHalfEven (meanQ [0, 8]) = 4
    ∧ ¬ ∃ r : ℚ, |r - (4 : ℚ)| ≤ (4 : ℚ) / 10 ∧ (2 : ℤ) = max (roundHalfEven r) 0 := by
  have hcount : non_zero_count (prepare_category_df [0, 8]) < 6 := by
    rw [non_zero_count_prepare]; decide
  have h0 : log1p (max ((0 : ℤ) : ℝ) 0) = 0 := by
    rw [log1p]
    norm_num [Real.log_one]
  have h8 : log1p (max ((8 : ℤ) : ℝ) 0) = Real.log 9 := by
    rw [log1p]
    norm_num
  have hlog9 : Real.log 9 = 2 * Real.log 3 := by
    rw [show (9 : ℝ) = 3 ^ 2 by norm_num, Real.log_pow]
    push_cast
    ring
  have havg : avg_log (prepare_category_df [0, 8]) = Real.log 3 := by
    rw [avg_log, prepare_category_df]
    rw [List.map_cons, List.map_cons, List.map_nil, h0, h8]
    rw [List.sum_cons, List.sum_cons, List.sum_nil, hlog9]
    norm_num
  have hbase : sparse_base (prepare_category_df [0, 8]) = 2 := by
    rw [sparse_base, havg, expm1, Real.exp_log (by norm_num : (0 : ℝ) < 3)]
    rw [show (3 : ℝ) - 1 = ((2 : ℤ) : ℝ) by norm_num]
    exact roundHalfEven_intCast 2
  refine ⟨?_, ?_, ?_⟩
  · rw [predict_category_sales, if_pos hcount]
    have h2 : roundHalfEven (((2 : ℤ) : ℚ) * 1) = 2 := by
      rw [mul_one]
      exact roundHalfEven_intCast 2
    simp only [hbase, add_noise, List.replicate, List.zip_cons_cons, List.zip_nil_right,
      List.map_cons, List.map_nil, h2]
    rfl
  · rw [show meanQ [0, 8] = ((4 : ℤ) : ℚ) by norm_num [meanQ]]
    exact roundHalfEven_intCast 4
  · rintro ⟨r, hr, he⟩
    have h1 : (18 : ℚ)/5 ≤ r := by
      have := (abs_le.1 hr).1
      linarith
    have h2 : r - 1/2 ≤ ((roundHalfEven r : ℤ) : ℚ) := roundHalfEven_ge r
    have h3 : (3 : ℚ) < ((roundHalfEven r : ℤ) : ℚ) := by linarith
    have h4 : (3 : ℤ) < roundHalfEven r := by exact_mod_cast h3
    have h5 : (4 : ℤ) ≤ max (roundHalfEven r) 0 := le_trans (by omega) (le_max_left _ _)
    omega

lemma es_unstable_10_100 : es_forecast_inestable [10, 10, 10] [100] (3/2) = true := by
  rw [es_forecast_inestable, if_neg (by norm_num)]
  simp only [Bool.and_eq_true, decide_eq_true_eq]
  constructor <;> norm_num [meanQ, last3]

/-- C3: in the model path, whenever the instability check judges the
inverted forecast unstable, both predictors discard it and return the
rounded mean of the trailing 3 historical values on the original scale,
replicated over `weeks` points at weekly dates starting the week after the
last historical date, with noise then applied. -/
theorem c3_unstable_model_fallback (ds vs : List ℤ) (weeks : ℕ) (umbral : ℚ)
    (rawDs : List ℤ) (rawYhat : List ℝ) (factors : List ℚ)
    (hpos : ∀ v ∈ vs, 0 ≤ v)
    (hcount : ¬ non_zero_count (prepare_category_df vs) < 6)
    (hunst : es_forecast_inestable (hist_vals (prepare_category_df vs))
        (fore_vals rawYhat weeks) umbral = true)
    (hlen : factors.length = weeks) :
    predict_category_sales ds vs weeks umbral rawDs rawYhat factors =
      { ds := dateRange (maxDs ds + 1) weeks
        yhat := add_noise (List.replicate weeks (roundHalfEven (meanQ (last3 vs)))) factors }
    ∧ (predict_category_sales ds vs weeks umbral rawDs rawYhat factors).yhat.length = weeks
    ∧ (∀ v ∈ (predict_category_sales ds vs weeks umbral rawDs rawYhat factors).yhat,
        ∃ f ∈ factors,
          v = max (roundHalfEven ((roundHalfEven (meanQ (last3 vs)) : ℚ) * f)) 0)
    ∧ predict_product_sales ds (prepare_product_df vs) weeks umbral rawDs rawYhat factors =
        predict_category_sales ds vs weeks umbral rawDs rawYhat factors := by
  have hhv : hist_vals (prepare_category_df vs) = vs := hist_vals_prepare_nonneg vs hpos
  have hmain : predict_category_sales ds vs weeks umbral rawDs rawYhat factors =
      { ds := dateRange (maxDs ds + 1) weeks
        yhat := add_noise (List.replicate weeks (roundHalfEven (meanQ (last3 vs))))
          factors } := by
    rw [predict_category_sales, if_neg hcount, if_pos hunst, hhv]
  refine ⟨hmain, ?_, ?_, ?_⟩
  · rw [hmain]
    have := add_noise_length (List.replicate weeks (roundHalfEven (meanQ (last3 vs))))
      factors (by rw [hlen, List.length_replicate])
    rw [this, List.length_replicate]
  · intro v hv
    rw [hmain] at hv
    exact add_noise_replicate_mem weeks (roundHalfEven (meanQ (last3 vs))) factors v hv
  · rw [hmain, predict_product_sales, prepare_product_eq_category, if_neg hcount,
      if_pos hunst, hhv]

theorem c3_unstable_model_fallback_witness :
    (∀ v ∈ ([10, 10, 10, 10, 10, 10] : List ℤ), 0 ≤ v)
    ∧ ¬ non_zero_count (prepare_category_df [10, 10, 10, 10, 10, 10]) < 6
    ∧ es_forecast_inestable (hist_vals (prepare_category_df [10, 10, 10, 10, 10, 10]))
        (fore_vals [log1p (max ((100 : ℤ) : ℝ) 0)] 1) (3/2) = true
    ∧ ([1] : List ℚ).length = 1
    ∧ (predict_category_sales [0, 1, 2, 3, 4, 5] [10, 10, 10, 10, 10, 10] 1 (3/2) [6]
          [log1p (max ((100 : ℤ) : ℝ) 0)] [1] =
        { ds := dateRange (maxDs [0, 1, 2, 3, 4, 5] + 1) 1
          yhat := add_noise
            (List.replicate 1 (roundHalfEven (meanQ (last3 [10, 10, 10, 10, 10, 10])))) [1] }
      ∧ (predict_category_sales [0, 1, 2, 3, 4, 5] [10, 10, 10, 10, 10, 10] 1 (3/2) [6]
          [log1p (max ((100 : ℤ) : ℝ) 0)] [1]).yhat.length = 1
      ∧ (∀ v ∈ (predict_category_sales [0, 1, 2, 3, 4, 5] [10, 10, 10, 10, 10, 10] 1 (3/2)
            [6] [log1p (max ((100 : ℤ) : ℝ) 0)] [1]).yhat,
          ∃ f ∈ ([1] : List ℚ),
            v = max (roundHalfEven
              ((roundHalfEven (meanQ (last3 [10, 10, 10, 10, 10, 10])) : ℚ) * f)) 0)
      ∧ predict_product_sales [0, 1, 2, 3, 4, 5] (prepare_product_df [10, 10, 10, 10, 10, 10])
            1 (3/2) [6] [log1p (max ((100 : ℤ) : ℝ) 0)] [1] =
          predict_category_sales [0, 1, 2, 3, 4, 5] [10, 10, 10, 10, 10, 10] 1 (3/2) [6]
            [log1p (max ((100 : ℤ) : ℝ) 0)] [1]) := by
  have hhv : hist_vals (prepare_category_df [10, 10, 10, 10, 10, 10]) =
      [10, 10, 10, 10, 10, 10] :=
    hist_vals_prepare_nonneg _ (by decide)
  have hfv : fore_vals [log1p (max ((100 : ℤ) : ℝ) 0)] 1 = [100] := by
    rw [fore_vals, List.map_cons, List.map_nil, invert_log1p_int 100 (by decide)]
    rfl
  have hunst : es_forecast_inestable (hist_vals (prepare_category_df [10, 10, 10, 10, 10, 10]))
      (fore_vals [log1p (max ((100 : ℤ) : ℝ) 0)] 1) (3/2) = true := by
    rw [hhv, hfv]
    rw [es_forecast_inestable, if_neg (by norm_num)]
    simp only [Bool.and_eq_true, decide_eq_true_eq]
    constructor <;> norm_num [meanQ, last3]
  refine ⟨by decide, ?_, hunst, by decide, ?_⟩
  · rw [non_zero_count_prepare]
    decide
  · exact c3_unstable_model_fallback [0, 1, 2, 3, 4, 5] [10, 10, 10, 10, 10, 10] 1 (3/2) [6]
      [log1p (max ((100 : ℤ) : ℝ) 0)] [1] (by decide)
      (by rw [non_zero_count_prepare]; decide) hunst (by decide)

/-- C4 (amended): a model failure is NOT caught at the per-entity boundary.
The first `ForecastingError` raised by the predictor propagates out of the
batch loop of both `generate_product_forecasts` and
`generate_category_forecasts`, aborting the batch, so the snapshot of the
remaining entities is not produced; only entities whose fetched history is
empty are skipped. -/
theorem c4_error_propagation_amended :
    (∀ (pre post : List (String × String)) (p : String × String)
        (fetchHist : String → List (ℤ × ℤ)) (predictProd : String → Except String Fore)
        (e : String),
      (∀ q ∈ pre, fetchHist q.1 = [] ∨ ∃ f, predictProd q.1 = Except.ok f) →
      fetchHist p.1 ≠ [] →
      predictProd p.1 = Except.error e →
      generate_product_forecasts (pre ++ p :: post) fetchHist predictProd = Except.error e)
    ∧ (∀ (pre post : List String) (c : String) (dates : List ℤ)
        (histVals : String → List ℤ) (predictCat : String → Except String Fore) (e : String),
      (∀ q ∈ pre, ∃ f, predictCat q = Except.ok f) →
      predictCat c = Except.error e →
      generate_category_forecasts (pre ++ c :: post) dates histVals predictCat =
        Except.error e) := by
  constructor
  · intro pre post p fetchHist predictProd e hpre hdf herr
    induction pre with
    | nil =>
      rw [List.nil_append, generate_product_forecasts, if_neg hdf, herr]
    | cons q rest ih =>
      rw [List.cons_append, generate_product_forecasts]
      rcases hpre q (List.mem_cons_self q rest) with hq | ⟨f, hq⟩
      · rw [if_pos hq]
        exact ih (fun r hr => hpre r (List.mem_cons_of_mem q hr))
      · by_cases hqe : fetchHist q.1 = []
        · rw [if_pos hqe]
          exact ih (fun r hr => hpre r (List.mem_cons_of_mem q hr))
        · rw [if_neg hqe, hq, ih (fun r hr => hpre r (List.mem_cons_of_mem q hr))]
  · intro pre post c dates histVals predictCat e hpre herr
    induction pre with
    | nil =>
      rw [List.nil_append, generate_category_forecasts, herr]
    | cons q rest ih =>
      obtain ⟨f, hq⟩ := hpre q (List.mem_cons_self q rest)
      rw [List.cons_append, generate_category_forecasts, hq,
        ih (fun r hr => hpre r (List.mem_cons_of_mem q hr))]

/-- C4 (counterexample): with two products whose histories are non-empty
and a predictor that fails on the first, the batch result is the error —
no snapshot list containing the second product's record is produced,
contradicting the claimed skip-and-continue policy. -/
theorem c4_error_propagation_counterexample :
    generate_product_forecasts [("a", "A"), ("b", "B")] (fun pid => [(0, 1)])
        (fun pid => if pid = "a" then Except.error "boom" else Except.ok (Fore.mk [1] [1]))
      = Except.error "boom"
    ∧ (generate_product_forecasts [("a", "A"), ("b", "B")] (fun pid => [(0, 1)])
        (fun pid => if pid = "a" then Except.error "boom"
          else Except.ok (Fore.mk [1] [1]))).isOk = false := by
  constructor <;> rfl

/-- C8: product regeneration iterates every known product, skips exactly
the products with empty fetched history, emits one record (built by the
per-product loop body) for every other product in order, and the snapshot
write replaces the file content wholesale with the new list — also when
that list is empty — independently of the previous content. -/
theorem c8_product_regeneration (products : List (String × String))
    (fetchHist : String → List (ℤ × ℤ)) (predictProd : String → Except String Fore)
    (fore : String → Fore)
    (hok : ∀ p ∈ products, fetchHist p.1 ≠ [] → predictProd p.1 = Except.ok (fore p.1)) :
    generate_product_forecasts products fetchHist predictProd =
      Except.ok ((products.filter (fun p => decide (fetchHist p.1 ≠ []))).map
        (fun p => product_record p.1 p.2 (fetchHist p.1) (fore p.1)))
    ∧ generate_product_forecasts [] fetchHist predictProd = Except.ok []
    ∧ (∀ (recs : List ProductRecord) (old : Option (List ProductRecord)),
        write_snapshot recs old = recs) := by
  refine ⟨?_, rfl, fun recs old => rfl⟩
  induction products with
  | nil => rfl
  | cons p rest ih =>
    rw [generate_product_forecasts]
    by_cases hdf : fetchHist p.1 = []
    · rw [if_pos hdf, ih (fun q hq hne => hok q (List.mem_cons_of_mem p hq) hne),
        List.filter_cons]
      simp [hdf]
    · rw [if_neg hdf, hok p (List.mem_cons_self p rest) hdf,
        ih (fun q hq hne => hok q (List.mem_cons_of_mem p hq) hne), List.filter_cons]
      simp [hdf]

theorem c8_product_regeneration_witness :
    generate_product_forecasts [("a", "A"), ("b", "B")]
        (fun pid => if pid = "a" then [] else [(0, 5)])
        (fun pid => Except.ok (Fore.mk [1] [6])) =
      Except.ok [product_record "b" "B" [(0, 5)] (Fore.mk [1] [6])] := by
  have h := (c8_product_regeneration [("a", "A"), ("b", "B")]
      (fun pid => if pid = "a" then [] else [(0, 5)])
      (fun pid => Except.ok (Fore.mk [1] [6]))
      (fun pid => Fore.mk [1] [6])
      (fun p hp hne => rfl)).1
  rw [h]
  rfl

/-- C10: in product regeneration, whenever the second instability check on
the finalized forecast fires, every cached forecast value for that product
is exactly the rounded mean of the trailing 3 history values — no noise —
so all of that product's cached values are identical. -/
theorem c10_second_instability_check (pid name : String) (df : List (ℤ × ℤ)) (foreDf : Fore)
    (hunst : es_forecast_inestable (df.map Prod.snd) foreDf.yhat (3/2) = true) :
    (product_record pid name df foreDf).forecasting =
      foreDf.ds.map (fun d => (d, roundHalfEven (meanQ (last3 (df.map Prod.snd)))))
    ∧ (∀ pr ∈ (product_record pid name df foreDf).forecasting,
        pr.2 = roundHalfEven (meanQ (last3 (df.map Prod.snd))))
    ∧ (product_record pid name df foreDf).forecasting.length = foreDf.ds.length := by
  have hmain : (product_record pid name df foreDf).forecasting =
      foreDf.ds.map (fun d => (d, roundHalfEven (meanQ (last3 (df.map Prod.snd))))) := by
    rw [product_record]
    simp only [hunst, if_true]
  refine ⟨hmain, ?_, ?_⟩
  · intro pr hpr
    rw [hmain] at hpr
    obtain ⟨d, -, rfl⟩ := List.mem_map.1 hpr
    rfl
  · rw [hmain, List.length_map]

theorem c10_second_instability_witness :
    es_forecast_inestable (([(0, 10), (1, 10), (2, 10)] : List (ℤ × ℤ)).map Prod.snd)
        (Fore.mk [3] [100]).yhat (3/2) = true
    ∧ ((product_record "p" "N" [(0, 10), (1, 10), (2, 10)] (Fore.mk [3] [100])).forecasting =
        (Fore.mk [3] [100]).ds.map (fun d =>
          (d, roundHalfEven (meanQ (last3 (([(0, 10), (1, 10), (2, 10)] :
            List (ℤ × ℤ)).map Prod.snd)))))
      ∧ (∀ pr ∈ (product_record "p" "N" [(0, 10), (1, 10), (2, 10)]
            (Fore.mk [3] [100])).forecasting,
          pr.2 = roundHalfEven (meanQ (last3 (([(0, 10), (1, 10), (2, 10)] :
            List (ℤ × ℤ)).map Prod.snd))))
      ∧ (product_record "p" "N" [(0, 10), (1, 10), (2, 10)]
          (Fore.mk [3] [100])).forecasting.length = (Fore.mk [3] [100]).ds.length) := by
  have hunst : es_forecast_inestable (([(0, 10), (1, 10), (2, 10)] :
      List (ℤ × ℤ)).map Prod.snd) (Fore.mk [3] [100]).yhat (3/2) = true := by
    rw [show (([(0, 10), (1, 10), (2, 10)] : List (ℤ × ℤ)).map Prod.snd) =
      [10, 10, 10] from rfl]
    exact es_unstable_10_100
  exact ⟨hunst, c10_second_instability_check "p" "N" [(0, 10), (1, 10), (2, 10)]
    (Fore.mk [3] [100]) hunst⟩
